import Mathlib

/-
Shallow embedding of the byte-supply buffers of blt/rust_arbitrary
(src/src/buffers/mod.rs, src/src/buffers/ring.rs, src/src/buffers/finite.rs).

Bytes are modelled as natural numbers; the backing region is a `List Nat`.
`usize` arithmetic is modelled by `Nat`: none of the operations can overflow
`usize` in Rust only where the Rust program would already have panicked or
where indices are bounded by slice lengths, and `saturating_sub` on `usize`
is exactly truncated subtraction on `Nat`.

A Rust panic (slice-index out of range, modulo by zero) is modelled as
`none` of an `Option`-returning function.
-/

/-- Shared buffer-construction errors (src/src/buffers/mod.rs, `BufferError`). -/
inductive BufferError where
  | EmptyInput : BufferError
  | ShiftFailure : BufferError
deriving DecidableEq

/-- Error type of the bounded buffer (src/src/buffers/finite.rs, `FBError`). -/
inductive FBError where
  | InsufficientBytes : FBError
deriving DecidableEq

/-- State of the wrapping buffer (src/src/buffers/ring.rs, `RingBuffer`).
The borrowed byte slice `buffer: &[u8]` is modelled as a `List Nat`. -/
structure RingBuffer where
  buffer : List Nat
  offset : Nat
  virtual_len : Nat
  container_size_limit : Nat
deriving DecidableEq

/-- `RingBuffer::new`: fails with `EmptyInput` on an empty backing region,
otherwise starts with `offset = 0` and `virtual_len = container_size_limit =
buffer.len()`. -/
def RingBuffer.new (buffer : List Nat) : Except BufferError RingBuffer :=
  if buffer.isEmpty then
    Except.error BufferError.EmptyInput
  else
    Except.ok { buffer := buffer, offset := 0, virtual_len := buffer.length,
                container_size_limit := buffer.length }

/-- `RingBuffer::fill_buffer` for an output buffer of length `n`.  The Rust
body first takes the two slices `buffer[offset..virtual_len]` and
`buffer[..offset]` (panicking when `offset > virtual_len` or
`virtual_len > buffer.len()`), then updates
`offset = (offset + n) % virtual_len` (panicking when `virtual_len = 0`),
then writes into the output by zipping it with the infinite repetition of the
two concatenated slices.  `none` models the panics; on success the written
output and the updated state are returned.  The written byte at position `i`
is element `i % w.length` of the rotated window `w`, whose length equals
`virtual_len` under the non-panic conditions. -/
def RingBuffer.fill_buffer (b : RingBuffer) (n : Nat) :
    Option (List Nat × RingBuffer) :=
  if b.virtual_len < b.offset ∨ b.buffer.length < b.virtual_len then
    none
  else if b.virtual_len = 0 then
    none
  else
    let w := (b.buffer.take b.virtual_len).drop b.offset ++ b.buffer.take b.offset
    some ((List.range n).map (fun i => w.getD (i % w.length) 0),
          { b with offset := (b.offset + n) % b.virtual_len })

/-- `RingBuffer::container_size`.  Modelled from the spec: the recursive
unsigned-integer decode `<usize as Arbitrary>::arbitrary`, which lives outside
`src/`, is abstracted as an arbitrary byte-consuming decoder `d` returning a
natural number and a successor state; the code under `src/` then reduces the
decoded value modulo `self.container_size_limit` (read after the decode has
mutated `self`). -/
def RingBuffer.container_size (d : RingBuffer → Option (Nat × RingBuffer))
    (b : RingBuffer) : Option (Nat × RingBuffer) :=
  (d b).map (fun p => (p.1 % p.2.container_size_limit, p.2))

/-- `RingBuffer::reset`: offset back to 0, `virtual_len` back to the full
backing length. -/
def RingBuffer.reset (b : RingBuffer) : RingBuffer :=
  { b with offset := 0, virtual_len := b.buffer.length }

/-- `RingBuffer::shift_right`: `offset = (offset + total) % virtual_len`;
`none` models the modulo-by-zero panic when `virtual_len = 0`. -/
def RingBuffer.shift_right (b : RingBuffer) (total : Nat) : Option RingBuffer :=
  if b.virtual_len = 0 then none
  else some { b with offset := (b.offset + total) % b.virtual_len }

/-- `RingBuffer::shrink`: `virtual_len /= 2`, returning the new value. -/
def RingBuffer.shrink (b : RingBuffer) : Nat × RingBuffer :=
  (b.virtual_len / 2, { b with virtual_len := b.virtual_len / 2 })

/-- State of the bounded buffer (src/src/buffers/finite.rs, `FiniteBuffer`). -/
structure FiniteBuffer where
  buffer : List Nat
  offset : Nat
  virtual_len : Nat
  container_size_limit : Nat
deriving DecidableEq

/-- `FiniteBuffer::new`: always succeeds, starting with `offset = 0` and
`virtual_len = container_size_limit = buffer.len()`. -/
def FiniteBuffer.new (buffer : List Nat) : Except BufferError FiniteBuffer :=
  Except.ok { buffer := buffer, offset := 0, virtual_len := buffer.length,
              container_size_limit := buffer.length }

/-- `FiniteBuffer::fill_buffer`.  The caller's output buffer is passed in and
returned alongside the updated state, mirroring the Rust `&mut` parameters:
the result is `(status, output buffer after the call, self after the call)`.
On success the output is fully overwritten with
`buffer[offset], …, buffer[offset + len - 1]` and `offset` advances; on
failure (`virtual_len.saturating_sub(offset) < len`) nothing is written and
the state is unchanged.  The read `b.buffer.getD (b.offset + i) 0` models the
Rust index `self.buffer[idx]`, which is in bounds under the guard whenever
`virtual_len ≤ buffer.len()` (true in every reachable state). -/
def FiniteBuffer.fill_buffer (b : FiniteBuffer) (out : List Nat) :
    Except FBError Unit × List Nat × FiniteBuffer :=
  if b.virtual_len - b.offset ≥ out.length then
    (Except.ok (),
     (List.range out.length).map (fun i => b.buffer.getD (b.offset + i) 0),
     { b with offset := b.offset + out.length })
  else
    (Except.error FBError.InsufficientBytes, out, b)

/-- `FiniteBuffer::container_size`.  Modelled from the spec exactly as
`RingBuffer.container_size`: the out-of-`src/` integer decode is abstracted
as a decoder `d`; the code under `src/` reduces its result modulo
`container_size_limit`. -/
def FiniteBuffer.container_size
    (d : FiniteBuffer → Except FBError (Nat × FiniteBuffer))
    (b : FiniteBuffer) : Except FBError (Nat × FiniteBuffer) :=
  (d b).map (fun p => (p.1 % p.2.container_size_limit, p.2))

/-- `FiniteBuffer::reset`: offset back to 0, everything else untouched. -/
def FiniteBuffer.reset (b : FiniteBuffer) : FiniteBuffer :=
  { b with offset := 0 }

/-- `FiniteBuffer::shift_right`: fails with `InsufficientBytes` when
`virtual_len.saturating_sub(offset) < total`, otherwise advances `offset`. -/
def FiniteBuffer.shift_right (b : FiniteBuffer) (total : Nat) :
    Except FBError Unit × FiniteBuffer :=
  if b.virtual_len - b.offset < total then
    (Except.error FBError.InsufficientBytes, b)
  else
    (Except.ok (), { b with offset := b.offset + total })

/-- `FiniteBuffer::shrink`: `virtual_len /= 2`, returning the new value. -/
def FiniteBuffer.shrink (b : FiniteBuffer) : Nat × FiniteBuffer :=
  (b.virtual_len / 2, { b with virtual_len := b.virtual_len / 2 })

/- Sanity checks mirroring the unit tests in src/src/buffers/ring.rs and
src/src/buffers/finite.rs. -/

example :
    RingBuffer.fill_buffer
      { buffer := [1, 2, 3, 4], offset := 0, virtual_len := 4,
        container_size_limit := 4 } 10 =
    some ([1, 2, 3, 4, 1, 2, 3, 4, 1, 2],
      { buffer := [1, 2, 3, 4], offset := 2, virtual_len := 4,
        container_size_limit := 4 }) := by decide

example :
    RingBuffer.fill_buffer
      { buffer := [1, 2, 3, 4], offset := 2, virtual_len := 4,
        container_size_limit := 4 } 10 =
    some ([3, 4, 1, 2, 3, 4, 1, 2, 3, 4],
      { buffer := [1, 2, 3, 4], offset := 0, virtual_len := 4,
        container_size_limit := 4 }) := by decide

example :
    RingBuffer.fill_buffer
      { buffer := [1, 2, 3, 4], offset := 0, virtual_len := 2,
        container_size_limit := 4 } 10 =
    some ([1, 2, 1, 2, 1, 2, 1, 2, 1, 2],
      { buffer := [1, 2, 3, 4], offset := 0, virtual_len := 2,
        container_size_limit := 4 }) := by decide

example :
    RingBuffer.fill_buffer
      { buffer := [1, 2, 3, 4], offset := 0, virtual_len := 1,
        container_size_limit := 4 } 10 =
    some ([1, 1, 1, 1, 1, 1, 1, 1, 1, 1],
      { buffer := [1, 2, 3, 4], offset := 0, virtual_len := 1,
        container_size_limit := 4 }) := by decide

example :
    FiniteBuffer.fill_buffer
      { buffer := [1, 2, 3, 4], offset := 0, virtual_len := 4,
        container_size_limit := 10 } [0, 0] =
    (Except.ok (), [1, 2],
     { buffer := [1, 2, 3, 4], offset := 2, virtual_len := 4,
       container_size_limit := 10 }) := rfl

example :
    (FiniteBuffer.fill_buffer
      { buffer := [1, 2, 3, 4], offset := 4, virtual_len := 4,
        container_size_limit := 10 } [0, 0]).1 =
    Except.error FBError.InsufficientBytes := rfl

example :
    (FiniteBuffer.shift_right
      { buffer := [1, 2, 3, 4], offset := 0, virtual_len := 4,
        container_size_limit := 10 } 5).1 =
    Except.error FBError.InsufficientBytes := rfl

/- Helper lemmas about the rotated window used by `RingBuffer.fill_buffer`. -/

/-- Length of the rotated window `buffer[offset..virtual_len] ++ buffer[..offset]`. -/
lemma window_length (buf : List Nat) (o v : Nat) (ho : o ≤ v) (hv : v ≤ buf.length) :
    ((buf.take v).drop o ++ buf.take o).length = v := by
  simp only [List.length_append, List.length_drop, List.length_take]
  omega

/-- Indexing the rotated window at `j < v` reads the backing byte at
`(o + j) % v`. -/
lemma window_getD (buf : List Nat) (o v : Nat) (ho : o ≤ v) (hv : v ≤ buf.length)
    (j : Nat) (hj : j < v) :
    ((buf.take v).drop o ++ buf.take o).getD j 0 = buf.getD ((o + j) % v) 0 := by
  have hlen1 : ((buf.take v).drop o).length = v - o := by
    simp only [List.length_drop, List.length_take]
    omega
  have hlen2 : (buf.take o).length = o ⊓ buf.length := List.length_take o buf
  have hlen2' : (buf.take o).length = o := by omega
  by_cases hc : j < v - o
  · have hjo : o + j < v := by omega
    have hmod : (o + j) % v = o + j := Nat.mod_eq_of_lt hjo
    have hball : j < ((buf.take v).drop o ++ buf.take o).length := by
      rw [List.length_append, hlen1, hlen2']; omega
    rw [List.getD_eq_getElem _ _ hball, List.getD_eq_getElem _ _ (by omega)]
    rw [List.getElem_append_left (by omega)]
    rw [List.getElem_drop, List.getElem_take]
    simp only [hmod]
  · have hge : v ≤ o + j := by omega
    have hmod : (o + j) % v = j - (v - o) := by
      rw [Nat.mod_eq_sub_mod hge, Nat.mod_eq_of_lt (by omega)]
      omega
    have hball : j < ((buf.take v).drop o ++ buf.take o).length := by
      rw [List.length_append, hlen1, hlen2']; omega
    rw [List.getD_eq_getElem _ _ hball, List.getD_eq_getElem _ _ (by omega)]
    rw [List.getElem_append_right (by omega)]
    rw [List.getElem_take]
    simp only [hlen1, hmod]

/-- Characterization of a non-panicking `RingBuffer.fill_buffer`: under
`offset ≤ virtual_len ≤ buffer.length` and `virtual_len ≥ 1` the call
succeeds, byte `i` of the output is the backing byte at
`(offset + i) % virtual_len`, and the new offset is
`(offset + n) % virtual_len`. -/
lemma ring_fill_eq (b : RingBuffer) (n : Nat) (ho : b.offset ≤ b.virtual_len)
    (hv : b.virtual_len ≤ b.buffer.length) (h1 : 1 ≤ b.virtual_len) :
    b.fill_buffer n =
      some ((List.range n).map
              (fun i => b.buffer.getD ((b.offset + i) % b.virtual_len) 0),
            { b with offset := (b.offset + n) % b.virtual_len }) := by
  have hw : ((b.buffer.take b.virtual_len).drop b.offset ++
      b.buffer.take b.offset).length = b.virtual_len :=
    window_length b.buffer b.offset b.virtual_len ho hv
  have hlist : ∀ i : Nat,
      ((b.buffer.take b.virtual_len).drop b.offset ++ b.buffer.take b.offset).getD
        (i % ((b.buffer.take b.virtual_len).drop b.offset ++
          b.buffer.take b.offset).length) 0
      = b.buffer.getD ((b.offset + i) % b.virtual_len) 0 := by
    intro i
    rw [hw, window_getD b.buffer b.offset b.virtual_len ho hv (i % b.virtual_len)
        (Nat.mod_lt _ (by omega))]
    rw [Nat.add_mod, Nat.mod_mod_of_dvd _ dvd_rfl, ← Nat.add_mod]
  simp only [RingBuffer.fill_buffer]
  rw [if_neg (by omega), if_neg (by omega)]
  simp only [hlist]

/-- Characterization of a non-panicking `RingBuffer.shift_right`. -/
lemma ring_shift_eq (b : RingBuffer) (t : Nat) (h1 : 1 ≤ b.virtual_len) :
    b.shift_right t = some { b with offset := (b.offset + t) % b.virtual_len } := by
  simp only [RingBuffer.shift_right]
  rw [if_neg (by omega)]

/-- Characterization of a successful `FiniteBuffer.fill_buffer`: when
`offset + out.length ≤ virtual_len ≤ buffer.length` the call succeeds and
copies exactly the bytes `buffer[offset], …, buffer[offset + out.length - 1]`. -/
lemma fin_fill_ok (b : FiniteBuffer) (out : List Nat)
    (h : b.offset + out.length ≤ b.virtual_len) (hv : b.virtual_len ≤ b.buffer.length) :
    b.fill_buffer out =
      (Except.ok (), (b.buffer.drop b.offset).take out.length,
       { b with offset := b.offset + out.length }) := by
  have hread : (List.range out.length).map (fun i => b.buffer.getD (b.offset + i) 0)
      = (b.buffer.drop b.offset).take out.length := by
    apply List.ext_getElem
    · simp only [List.length_map, List.length_range, List.length_take,
        List.length_drop]
      omega
    · intro i h1 h2
      simp only [List.length_map, List.length_range] at h1
      simp only [List.getElem_map, List.getElem_range]
      rw [List.getElem_take, List.getElem_drop]
      rw [List.getD_eq_getElem _ _ (by omega)]
  simp only [FiniteBuffer.fill_buffer]
  rw [if_pos (by omega)]
  rw [hread]

/-- Characterization of a failing `FiniteBuffer.fill_buffer`: when fewer than
`out.length` bytes remain, it reports `InsufficientBytes` and changes nothing. -/
lemma fin_fill_err (b : FiniteBuffer) (out : List Nat)
    (h : b.virtual_len - b.offset < out.length) :
    b.fill_buffer out = (Except.error FBError.InsufficientBytes, out, b) := by
  simp only [FiniteBuffer.fill_buffer]
  rw [if_neg (by omega)]

/-- Characterization of a successful `FiniteBuffer.shift_right`. -/
lemma fin_shift_ok (b : FiniteBuffer) (t : Nat) (h : t ≤ b.virtual_len - b.offset) :
    b.shift_right t = (Except.ok (), { b with offset := b.offset + t }) := by
  simp only [FiniteBuffer.shift_right]
  rw [if_neg (by omega)]

/-- Characterization of a failing `FiniteBuffer.shift_right`. -/
lemma fin_shift_err (b : FiniteBuffer) (t : Nat) (h : b.virtual_len - b.offset < t) :
    b.shift_right t = (Except.error FBError.InsufficientBytes, b) := by
  simp only [FiniteBuffer.shift_right]
  rw [if_pos (by omega)]

deriving instance DecidableEq for Except

/-- The state invariant the spec asserts for the wrapping buffer:
`virtual_len ≥ 1` and `offset` a valid index into the first `virtual_len`
bytes of the backing region. -/
def RingBuffer.Inv (b : RingBuffer) : Prop :=
  1 ≤ b.virtual_len ∧ b.offset < b.virtual_len ∧ b.virtual_len ≤ b.buffer.length

instance (b : RingBuffer) : Decidable b.Inv := by
  unfold RingBuffer.Inv
  exact inferInstance

/-- C1 counterexample: the claimed invariant is not preserved by `shrink`.
From the freshly constructed wrapping buffer over `[1]`, one `shrink` drives
`virtual_len` to `0`; from the fresh buffer over `[1, 2, 3, 4]`, a
`shift_right 3` followed by one `shrink` leaves `offset = 3 ≥ virtual_len = 2`,
so `offset` is no longer a valid index into the first `virtual_len` bytes. -/
theorem C1_counterexample :
    RingBuffer.new [1] =
      Except.ok ⟨[1], 0, 1, 1⟩ ∧
    (RingBuffer.shrink ⟨[1], 0, 1, 1⟩).2.virtual_len = 0 ∧
    RingBuffer.new [1, 2, 3, 4] = Except.ok ⟨[1, 2, 3, 4], 0, 4, 4⟩ ∧
    RingBuffer.shift_right ⟨[1, 2, 3, 4], 0, 4, 4⟩ 3 =
      some ⟨[1, 2, 3, 4], 3, 4, 4⟩ ∧
    (RingBuffer.shrink ⟨[1, 2, 3, 4], 3, 4, 4⟩).2.virtual_len = 2 ∧
    (RingBuffer.shrink ⟨[1, 2, 3, 4], 3, 4, 4⟩).2.offset = 3 := by
  refine ⟨by decide, by decide, by decide, by decide, by decide, by decide⟩

/-- C1 (amended): construction from an empty backing region fails; a
successfully constructed wrapping buffer satisfies the invariant
(`virtual_len ≥ 1`, `offset < virtual_len ≤ backing length`), and the
invariant is preserved by `fill_buffer` and `shift_right` (which then also
succeed), re-established from any state by `reset`, and preserved by
`container_size` for every decoder that preserves it; `shrink` is excluded,
since it can drive `virtual_len` to `0` and leave `offset ≥ virtual_len`. -/
theorem C1_ring_invariant_amended :
    (RingBuffer.new [] = Except.error BufferError.EmptyInput) ∧
    (∀ bs : List Nat, bs ≠ [] →
      RingBuffer.new bs = Except.ok ⟨bs, 0, bs.length, bs.length⟩ ∧
      RingBuffer.Inv ⟨bs, 0, bs.length, bs.length⟩) ∧
    (∀ b : RingBuffer, b.Inv → ∀ n, ∃ out b',
      b.fill_buffer n = some (out, b') ∧ b'.Inv) ∧
    (∀ b : RingBuffer, b.Inv → ∀ t, ∃ b',
      b.shift_right t = some b' ∧ b'.Inv) ∧
    (∀ b : RingBuffer, 1 ≤ b.buffer.length → b.reset.Inv) ∧
    (∀ d : RingBuffer → Option (Nat × RingBuffer),
      (∀ b x b', d b = some (x, b') → b.Inv → b'.Inv) →
      ∀ b r b', RingBuffer.container_size d b = some (r, b') → b.Inv → b'.Inv) := by
  refine ⟨by decide, ?_, ?_, ?_, ?_, ?_⟩
  · intro bs hbs
    have hlen : 1 ≤ bs.length := List.length_pos.mpr hbs
    constructor
    · simp only [RingBuffer.new]
      rw [if_neg (by simp [hbs])]
    · exact ⟨hlen, hlen, le_refl _⟩
  · rintro b ⟨h1, h2, h3⟩ n
    refine ⟨_, _, ring_fill_eq b n (le_of_lt h2) h3 h1, ?_⟩
    exact ⟨h1, Nat.mod_lt _ (by omega), h3⟩
  · rintro b ⟨h1, h2, h3⟩ t
    refine ⟨_, ring_shift_eq b t h1, ?_⟩
    exact ⟨h1, Nat.mod_lt _ (by omega), h3⟩
  · intro b hb
    exact ⟨hb, hb, le_refl _⟩
  · intro d hd b r b' hcall hb
    simp only [RingBuffer.container_size] at hcall
    cases hdb : d b with
    | none => rw [hdb] at hcall; exact Option.noConfusion hcall
    | some p =>
      rw [hdb] at hcall
      have hcall' : some (p.1 % p.2.container_size_limit, p.2) = some (r, b') :=
        hcall
      have hpair := Option.some.inj hcall'
      have hb2 : p.2 = b' := congrArg Prod.snd hpair
      exact hb2 ▸ hd b p.1 p.2 (by rw [hdb]) hb

/-- C1 witness: the amended invariant theorem applied at concrete inputs. -/
theorem C1_ring_invariant_amended_witness :
    (RingBuffer.new [5, 6] = Except.ok ⟨[5, 6], 0, 2, 2⟩ ∧
      RingBuffer.Inv ⟨[5, 6], 0, 2, 2⟩) ∧
    (∃ out b', RingBuffer.fill_buffer ⟨[5, 6], 0, 2, 2⟩ 3 = some (out, b') ∧
      b'.Inv) ∧
    (∃ b', RingBuffer.shift_right ⟨[5, 6], 0, 2, 2⟩ 3 = some b' ∧ b'.Inv) ∧
    RingBuffer.Inv (RingBuffer.reset ⟨[5, 6], 1, 1, 2⟩) := by
  refine ⟨C1_ring_invariant_amended.2.1 [5, 6] (by decide),
          C1_ring_invariant_amended.2.2.1 ⟨[5, 6], 0, 2, 2⟩ (by decide) 3,
          C1_ring_invariant_amended.2.2.2.1 ⟨[5, 6], 0, 2, 2⟩ (by decide) 3,
          C1_ring_invariant_amended.2.2.2.2.1 ⟨[5, 6], 1, 1, 2⟩ (by decide)⟩

/-- C2 counterexample: the wrapping buffer's `fill_buffer` and `shift_right`
are not infallible for every prior sequence of `shrink` calls.  After the
fresh buffer over `[1]` is shrunk once (`virtual_len = 0`), `fill_buffer`
and `shift_right` both panic (modulo by zero); after the fresh buffer over
`[1, 2, 3, 4]` is shifted to offset 3 and shrunk once (`virtual_len = 2`),
`fill_buffer` panics (slice index out of range). -/
theorem C2_counterexample :
    RingBuffer.fill_buffer (RingBuffer.shrink ⟨[1], 0, 1, 1⟩).2 1 = none ∧
    RingBuffer.shift_right (RingBuffer.shrink ⟨[1], 0, 1, 1⟩).2 0 = none ∧
    RingBuffer.fill_buffer (RingBuffer.shrink ⟨[1, 2, 3, 4], 3, 4, 4⟩).2 1 =
      none := by
  refine ⟨by decide, by decide, by decide⟩

/-- C2 (amended): `fill_buffer` and `shift_right` on the wrapping buffer
always return `Ok` and never panic, provided the state satisfies the
construction-time invariant `offset ≤ virtual_len ≤ backing length` and
`virtual_len ≥ 1` — which holds after every operation sequence free of the
`shrink` calls exhibited in the counterexample. -/
theorem C2_ring_ops_infallible_amended (b : RingBuffer)
    (ho : b.offset ≤ b.virtual_len) (hv : b.virtual_len ≤ b.buffer.length)
    (h1 : 1 ≤ b.virtual_len) :
    (∀ n, ∃ out b', b.fill_buffer n = some (out, b')) ∧
    (∀ t, ∃ b', b.shift_right t = some b') := by
  constructor
  · intro n
    exact ⟨_, _, ring_fill_eq b n ho hv h1⟩
  · intro t
    exact ⟨_, ring_shift_eq b t h1⟩

/-- C2 witness: the amended infallibility theorem at a concrete state. -/
theorem C2_ring_ops_infallible_amended_witness :
    (∃ out b', RingBuffer.fill_buffer ⟨[1, 2, 3, 4], 2, 4, 4⟩ 10 =
      some (out, b')) ∧
    (∃ b', RingBuffer.shift_right ⟨[1, 2, 3, 4], 2, 4, 4⟩ 7 = some b') := by
  refine ⟨(C2_ring_ops_infallible_amended ⟨[1, 2, 3, 4], 2, 4, 4⟩
      (by decide) (by decide) (by decide)).1 10,
    (C2_ring_ops_infallible_amended ⟨[1, 2, 3, 4], 2, 4, 4⟩
      (by decide) (by decide) (by decide)).2 7⟩

/-- C3 counterexample: the claimed bounded-buffer invariant
`offset ≤ virtual_len` is not preserved by `shrink`, and with
`offset = virtual_len` a fill request of length 0 still succeeds.  From the
fresh buffer over `[1, 2, 3, 4]`, filling 3 bytes puts `offset = 3`; one
`shrink` then leaves `virtual_len = 2 < offset = 3`.  And on the exhausted
buffer over `[1]` (`offset = virtual_len = 1`, reached by filling one byte),
a zero-length fill request returns `Ok`, so not every further fill request
fails. -/
theorem C3_counterexample :
    FiniteBuffer.new [1, 2, 3, 4] = Except.ok ⟨[1, 2, 3, 4], 0, 4, 4⟩ ∧
    (FiniteBuffer.fill_buffer ⟨[1, 2, 3, 4], 0, 4, 4⟩ [0, 0, 0]).2.2 =
      ⟨[1, 2, 3, 4], 3, 4, 4⟩ ∧
    (FiniteBuffer.shrink ⟨[1, 2, 3, 4], 3, 4, 4⟩).2 = ⟨[1, 2, 3, 4], 3, 2, 4⟩ ∧
    ¬ ((⟨[1, 2, 3, 4], 3, 2, 4⟩ : FiniteBuffer).offset ≤
       (⟨[1, 2, 3, 4], 3, 2, 4⟩ : FiniteBuffer).virtual_len) ∧
    (FiniteBuffer.fill_buffer ⟨[1], 0, 1, 1⟩ [0]).2.2 = ⟨[1], 1, 1, 1⟩ ∧
    (FiniteBuffer.fill_buffer ⟨[1], 1, 1, 1⟩ []).1 = Except.ok () := by
  refine ⟨by decide, by decide, by decide, by decide, by decide, by decide⟩

/-- C3 (amended): for the bounded buffer, the backing region and
`virtual_len` are untouched by `fill_buffer` and `shift_right`, `reset` only
zeroes `offset`, and `shrink` halves `virtual_len` (never increasing it), so
`virtual_len ≤ backing length` holds after every operation sequence;
`offset ≤ virtual_len` is established at construction and preserved by every
operation except `shrink`, which can leave `virtual_len < offset`; and once
`virtual_len ≤ offset`, every fill request of length ≥ 1 (not length 0) fails
with `InsufficientBytes`, and `fill_buffer`, `shift_right` and `shrink` keep
the buffer in that exhausted state until `reset`. -/
theorem C3_finite_invariant_amended :
    (∀ bs : List Nat, ∀ fb : FiniteBuffer, FiniteBuffer.new bs = Except.ok fb →
      fb.offset ≤ fb.virtual_len ∧ fb.virtual_len ≤ fb.buffer.length) ∧
    (∀ b : FiniteBuffer, ∀ out : List Nat,
      (b.fill_buffer out).2.2.buffer = b.buffer ∧
      (b.fill_buffer out).2.2.virtual_len = b.virtual_len ∧
      (b.offset ≤ b.virtual_len → (b.fill_buffer out).2.2.offset ≤ b.virtual_len)) ∧
    (∀ b : FiniteBuffer, ∀ t : Nat,
      (b.shift_right t).2.buffer = b.buffer ∧
      (b.shift_right t).2.virtual_len = b.virtual_len ∧
      (b.offset ≤ b.virtual_len → (b.shift_right t).2.offset ≤ b.virtual_len)) ∧
    (∀ b : FiniteBuffer, b.reset.offset = 0 ∧ b.reset.virtual_len = b.virtual_len ∧
      b.reset.buffer = b.buffer) ∧
    (∀ b : FiniteBuffer, (b.shrink).2.virtual_len ≤ b.virtual_len ∧
      (b.shrink).2.buffer = b.buffer ∧ (b.shrink).2.offset = b.offset) ∧
    (∀ b : FiniteBuffer, ∀ out : List Nat, b.virtual_len ≤ b.offset →
      1 ≤ out.length →
      (b.fill_buffer out).1 = Except.error FBError.InsufficientBytes) ∧
    (∀ b : FiniteBuffer, b.virtual_len ≤ b.offset →
      (∀ out : List Nat, (b.fill_buffer out).2.2.virtual_len ≤
        (b.fill_buffer out).2.2.offset) ∧
      (∀ t : Nat, (b.shift_right t).2.virtual_len ≤ (b.shift_right t).2.offset) ∧
      (b.shrink).2.virtual_len ≤ (b.shrink).2.offset) := by
  refine ⟨?_, ?_, ?_, ?_, ?_, ?_, ?_⟩
  · intro bs fb hnew
    cases Except.ok.inj hnew
    exact ⟨Nat.zero_le _, le_refl _⟩
  · intro b out
    simp only [FiniteBuffer.fill_buffer]
    split
    · refine ⟨rfl, rfl, fun h => ?_⟩
      simp only
      omega
    · exact ⟨rfl, rfl, fun h => h⟩
  · intro b t
    simp only [FiniteBuffer.shift_right]
    split
    · exact ⟨rfl, rfl, fun h => h⟩
    · refine ⟨rfl, rfl, fun h => ?_⟩
      simp only
      omega
  · intro b
    exact ⟨rfl, rfl, rfl⟩
  · intro b
    exact ⟨Nat.div_le_self _ _, rfl, rfl⟩
  · intro b out hex hlen
    exact congrArg Prod.fst (fin_fill_err b out (by omega))
  · intro b hex
    refine ⟨?_, ?_, ?_⟩
    · intro out
      simp only [FiniteBuffer.fill_buffer]
      split
      · simp only
        omega
      · exact hex
    · intro t
      simp only [FiniteBuffer.shift_right]
      split
      · exact hex
      · simp only
        omega
    · simp only [FiniteBuffer.shrink]
      omega

/-- C3 witness: the amended theorem applied at concrete inputs. -/
theorem C3_finite_invariant_amended_witness :
    ((⟨[7, 8], 0, 2, 2⟩ : FiniteBuffer).offset ≤
       (⟨[7, 8], 0, 2, 2⟩ : FiniteBuffer).virtual_len ∧
     (⟨[7, 8], 0, 2, 2⟩ : FiniteBuffer).virtual_len ≤
       (⟨[7, 8], 0, 2, 2⟩ : FiniteBuffer).buffer.length) ∧
    (FiniteBuffer.fill_buffer ⟨[7, 8], 0, 2, 2⟩ [0]).2.2.offset ≤
      (⟨[7, 8], 0, 2, 2⟩ : FiniteBuffer).virtual_len ∧
    (FiniteBuffer.fill_buffer ⟨[9], 1, 1, 1⟩ [0]).1 =
      Except.error FBError.InsufficientBytes ∧
    (FiniteBuffer.shift_right ⟨[9], 1, 1, 1⟩ 5).2.virtual_len ≤
      (FiniteBuffer.shift_right ⟨[9], 1, 1, 1⟩ 5).2.offset := by
  refine ⟨C3_finite_invariant_amended.1 [7, 8] ⟨[7, 8], 0, 2, 2⟩ rfl,
    (C3_finite_invariant_amended.2.1 ⟨[7, 8], 0, 2, 2⟩ [0]).2.2 (by decide),
    C3_finite_invariant_amended.2.2.2.2.2.1 ⟨[9], 1, 1, 1⟩ [0] (by decide)
      (by decide),
    (C3_finite_invariant_amended.2.2.2.2.2.2 ⟨[9], 1, 1, 1⟩ (by decide)).2.1 5⟩

/-- C4: wrapping periodicity.  From a freshly constructed wrapping buffer
over `bs` (offset 0), a fill of length `n` writes `bs[i % L]` at output
position `i` (the region repeated to length `n`), leaves the offset at
`n % L`, and a second fill of the same length continues from there, writing
`bs[(n + i) % L]` at position `i`. -/
theorem C4_ring_periodicity (bs : List Nat) (n : Nat) (h : bs ≠ []) :
    RingBuffer.new bs = Except.ok ⟨bs, 0, bs.length, bs.length⟩ ∧
    RingBuffer.fill_buffer ⟨bs, 0, bs.length, bs.length⟩ n =
      some ((List.range n).map (fun i => bs.getD (i % bs.length) 0),
            ⟨bs, n % bs.length, bs.length, bs.length⟩) ∧
    RingBuffer.fill_buffer ⟨bs, n % bs.length, bs.length, bs.length⟩ n =
      some ((List.range n).map (fun i => bs.getD ((n + i) % bs.length) 0),
            ⟨bs, (n + n) % bs.length, bs.length, bs.length⟩) := by
  have h1 : 1 ≤ bs.length := List.length_pos.mpr h
  refine ⟨?_, ?_, ?_⟩
  · simp only [RingBuffer.new]
    rw [if_neg (by simp [h])]
  · have := ring_fill_eq ⟨bs, 0, bs.length, bs.length⟩ n (Nat.zero_le _)
      (le_refl _) h1
    simpa using this
  · have := ring_fill_eq ⟨bs, n % bs.length, bs.length, bs.length⟩ n
      (le_of_lt (Nat.mod_lt _ (by omega))) (le_refl _) h1
    simpa [Nat.mod_add_mod] using this

/-- C4 witness: the periodicity theorem at the spec's own example,
region `[1, 2, 3, 4]` with 10-byte fills. -/
theorem C4_ring_periodicity_witness :
    RingBuffer.fill_buffer ⟨[1, 2, 3, 4], 0, 4, 4⟩ 10 =
      some ([1, 2, 3, 4, 1, 2, 3, 4, 1, 2], ⟨[1, 2, 3, 4], 2, 4, 4⟩) ∧
    RingBuffer.fill_buffer ⟨[1, 2, 3, 4], 2, 4, 4⟩ 10 =
      some ([3, 4, 1, 2, 3, 4, 1, 2, 3, 4], ⟨[1, 2, 3, 4], 0, 4, 4⟩) := by
  have h := C4_ring_periodicity [1, 2, 3, 4] 10 (by decide)
  exact ⟨h.2.1, h.2.2⟩

/-- Test harness for fill sequences: run one `fill_buffer` per requested
length (into a zero-initialised output of that length), collecting the
written outputs; `none` as soon as one call fails. -/
def FiniteBuffer.runFills (b : FiniteBuffer) :
    List Nat → Option (List (List Nat) × FiniteBuffer)
  | [] => some ([], b)
  | n :: ns =>
    match b.fill_buffer (List.replicate n 0) with
    | (Except.ok _, out, b') =>
      match b'.runFills ns with
      | some (outs, b'') => some (out :: outs, b'')
      | none => none
    | (Except.error _, _, _) => none

/-- Expected outputs of a fill sequence: the request of length `n` issued at
offset `o` returns exactly the backing bytes of `[o, o + n)`. -/
def sliceOuts (buf : List Nat) (o : Nat) : List Nat → List (List Nat)
  | [] => []
  | n :: ns => (buf.drop o).take n :: sliceOuts buf (o + n) ns

/-- A fill sequence whose lengths fit in the remaining window succeeds,
returns the consecutive slices of the backing region, and advances the
offset by the total requested length. -/
lemma runFills_eq : ∀ (ns : List Nat) (b : FiniteBuffer),
    b.offset + ns.sum ≤ b.virtual_len → b.virtual_len ≤ b.buffer.length →
    b.runFills ns =
      some (sliceOuts b.buffer b.offset ns, { b with offset := b.offset + ns.sum })
  | [], b, hsum, hv => by
    simp [FiniteBuffer.runFills, sliceOuts]
  | n :: ns, b, hsum, hv => by
    have hsum' : n + ns.sum = (n :: ns).sum := (List.sum_cons).symm
    have hfill := fin_fill_ok b (List.replicate n 0)
      (by rw [List.length_replicate]; omega) hv
    have hrec := runFills_eq ns { b with offset := b.offset + n }
      (by simp only; omega) (by simp only; exact hv)
    simp only [FiniteBuffer.runFills, hfill, List.length_replicate, hrec,
      sliceOuts, List.sum_cons]
    simp [Nat.add_assoc]

/-- C5: construction of the bounded buffer always succeeds (also for an empty
region, which starts with `virtual_len = 0` and is already exhausted), every
fill sequence whose lengths sum to exactly the backing length succeeds with
each call copying the bytes of `[offset, offset + n)`, and the next fill of
length ≥ 1 then fails with `InsufficientBytes`. -/
theorem C5_bounded_exhaustion (bs ns out2 : List Nat)
    (hsum : ns.sum = bs.length) (hlen : 1 ≤ out2.length) :
    FiniteBuffer.new bs = Except.ok ⟨bs, 0, bs.length, bs.length⟩ ∧
    FiniteBuffer.runFills ⟨bs, 0, bs.length, bs.length⟩ ns =
      some (sliceOuts bs 0 ns, ⟨bs, bs.length, bs.length, bs.length⟩) ∧
    (FiniteBuffer.fill_buffer ⟨bs, bs.length, bs.length, bs.length⟩ out2).1 =
      Except.error FBError.InsufficientBytes := by
  refine ⟨rfl, ?_, ?_⟩
  · have := runFills_eq ns ⟨bs, 0, bs.length, bs.length⟩
      (by simp only; omega) (le_refl _)
    simpa [hsum] using this
  · exact congrArg Prod.fst (fin_fill_err ⟨bs, bs.length, bs.length, bs.length⟩
      out2 (by simp only; omega))

/-- C5 witness: region `[1, 2, 3, 4]`, fills of lengths 2 and 2 (summing to
the backing length 4) yield `[1, 2]` then `[3, 4]`, and one more 1-byte fill
fails. -/
theorem C5_bounded_exhaustion_witness :
    FiniteBuffer.runFills ⟨[1, 2, 3, 4], 0, 4, 4⟩ [2, 2] =
      some ([[1, 2], [3, 4]], ⟨[1, 2, 3, 4], 4, 4, 4⟩) ∧
    (FiniteBuffer.fill_buffer ⟨[1, 2, 3, 4], 4, 4, 4⟩ [0]).1 =
      Except.error FBError.InsufficientBytes := by
  have h := C5_bounded_exhaustion [1, 2, 3, 4] [2, 2] [0] (by decide) (by decide)
  exact ⟨h.2.1, h.2.2⟩

/-- C6: on both strategies each `shrink` sets `virtual_len` to
`virtual_len / 2` (integer division) and returns the new value, changing
nothing else; and on the wrapping buffer a fill after a `shrink` cycles only
over the first `virtual_len / 2` bytes of the region (every output byte is
read at an index `(offset + i) % (virtual_len / 2)` of the backing region). -/
theorem C6_shrink_halves :
    (∀ b : FiniteBuffer,
      b.shrink = (b.virtual_len / 2, { b with virtual_len := b.virtual_len / 2 })) ∧
    (∀ b : RingBuffer,
      b.shrink = (b.virtual_len / 2, { b with virtual_len := b.virtual_len / 2 })) ∧
    (∀ b : RingBuffer, ∀ n : Nat,
      b.offset ≤ b.virtual_len / 2 → 1 ≤ b.virtual_len / 2 →
      b.virtual_len ≤ b.buffer.length →
      (b.shrink).2.fill_buffer n =
        some ((List.range n).map
                (fun i => b.buffer.getD ((b.offset + i) % (b.virtual_len / 2)) 0),
              { b with virtual_len := b.virtual_len / 2,
                       offset := (b.offset + n) % (b.virtual_len / 2) })) := by
  refine ⟨fun b => rfl, fun b => rfl, ?_⟩
  intro b n ho h1 hv
  exact ring_fill_eq { b with virtual_len := b.virtual_len / 2 } n ho
    (by simp only; omega) h1

/-- C6 witness: the spec's example, region `[1, 2, 3, 4]`.  After one shrink
`virtual_len = 2` and a 10-byte fill yields `[1, 2, 1, 2, 1, 2, 1, 2, 1, 2]`;
after a second shrink `virtual_len = 1` and a 10-byte fill yields ten copies
of `1`. -/
theorem C6_shrink_halves_witness :
    (RingBuffer.shrink ⟨[1, 2, 3, 4], 0, 4, 4⟩).2.fill_buffer 10 =
      some ([1, 2, 1, 2, 1, 2, 1, 2, 1, 2], ⟨[1, 2, 3, 4], 0, 2, 4⟩) ∧
    (RingBuffer.shrink ⟨[1, 2, 3, 4], 0, 2, 4⟩).2.fill_buffer 10 =
      some ([1, 1, 1, 1, 1, 1, 1, 1, 1, 1], ⟨[1, 2, 3, 4], 0, 1, 4⟩) := by
  exact ⟨C6_shrink_halves.2.2 ⟨[1, 2, 3, 4], 0, 4, 4⟩ 10 (by decide) (by decide)
      (by decide),
    C6_shrink_halves.2.2 ⟨[1, 2, 3, 4], 0, 2, 4⟩ 10 (by decide) (by decide)
      (by decide)⟩

/-- C7: `reset` zeroes `offset` on both strategies; the bounded buffer keeps
`virtual_len` (so shrink effects persist across resets) while the wrapping
buffer restores `virtual_len` to the full backing length (undoing prior
shrinks); in both cases `container_size_limit` and the backing region are
unchanged. -/
theorem C7_reset_effects :
    (∀ b : FiniteBuffer,
      b.reset.offset = 0 ∧ b.reset.virtual_len = b.virtual_len ∧
      b.reset.container_size_limit = b.container_size_limit ∧
      b.reset.buffer = b.buffer) ∧
    (∀ b : RingBuffer,
      b.reset.offset = 0 ∧ b.reset.virtual_len = b.buffer.length ∧
      b.reset.container_size_limit = b.container_size_limit ∧
      b.reset.buffer = b.buffer) ∧
    (∀ b : FiniteBuffer, ((b.shrink).2).reset.virtual_len = b.virtual_len / 2) ∧
    (∀ b : RingBuffer, ((b.shrink).2).reset.virtual_len = b.buffer.length) := by
  exact ⟨fun b => ⟨rfl, rfl, rfl, rfl⟩, fun b => ⟨rfl, rfl, rfl, rfl⟩,
    fun b => rfl, fun b => rfl⟩

/-- Test harness for C8: `shift_right k` followed by a fill of length `n`
(into a zero-initialised output), `true` iff both calls succeed. -/
def FiniteBuffer.skipThenFill (b : FiniteBuffer) (k n : Nat) : Bool :=
  match b.shift_right k with
  | (Except.ok _, b') =>
    match (b'.fill_buffer (List.replicate n 0)).1 with
    | Except.ok _ => true
    | Except.error _ => false
  | (Except.error _, _) => false

/-- C8: on a freshly constructed bounded buffer, `shift_right k` followed by
a fill of length `n` succeeds iff `k + n ≤ virtual_len` (the backing length)
and otherwise fails; and in any state `shift_right k` fails with
`InsufficientBytes` iff `k > virtual_len - offset` (truncated subtraction,
exactly the code's `saturating_sub`). -/
theorem C8_bounded_skip_then_fill :
    (∀ (bs : List Nat) (fb : FiniteBuffer) (k n : Nat),
      FiniteBuffer.new bs = Except.ok fb →
      (fb.skipThenFill k n = true ↔ k + n ≤ bs.length)) ∧
    (∀ (b : FiniteBuffer) (k : Nat),
      (b.shift_right k).1 = Except.error FBError.InsufficientBytes ↔
        b.virtual_len - b.offset < k) := by
  constructor
  · intro bs fb k n hnew
    cases Except.ok.inj hnew
    by_cases hk : k ≤ bs.length
    · rw [FiniteBuffer.skipThenFill,
        fin_shift_ok ⟨bs, 0, bs.length, bs.length⟩ k (by simp only; omega)]
      simp only [Nat.zero_add]
      by_cases hn : k + n ≤ bs.length
      · rw [fin_fill_ok ⟨bs, k, bs.length, bs.length⟩ (List.replicate n 0)
          (by simp only [List.length_replicate]; omega) (le_refl _)]
        simp only [true_iff]
        omega
      · rw [fin_fill_err ⟨bs, k, bs.length, bs.length⟩ (List.replicate n 0)
          (by simp only [List.length_replicate]; omega)]
        simp only [Bool.false_eq_true, false_iff]
        omega
    · rw [FiniteBuffer.skipThenFill,
        fin_shift_err ⟨bs, 0, bs.length, bs.length⟩ k (by simp only; omega)]
      simp only [Bool.false_eq_true, false_iff]
      omega
  · intro b k
    by_cases h : b.virtual_len - b.offset < k
    · rw [fin_shift_err b k h]
      simpa using h
    · rw [fin_shift_ok b k (by omega)]
      simp only [reduceCtorEq, false_iff]
      omega

/-- C8 witness: fresh buffer over `[1, 2, 3, 4]`; skip 1 then fill 2 succeeds
(1 + 2 ≤ 4), skip 1 then fill 4 fails (1 + 4 > 4), and a skip of 5 on the
fresh buffer reports `InsufficientBytes` (5 > 4 - 0). -/
theorem C8_bounded_skip_then_fill_witness :
    FiniteBuffer.skipThenFill ⟨[1, 2, 3, 4], 0, 4, 4⟩ 1 2 = true ∧
    ¬ FiniteBuffer.skipThenFill ⟨[1, 2, 3, 4], 0, 4, 4⟩ 1 4 = true ∧
    (FiniteBuffer.shift_right ⟨[1, 2, 3, 4], 0, 4, 4⟩ 5).1 =
      Except.error FBError.InsufficientBytes := by
  refine ⟨(C8_bounded_skip_then_fill.1 [1, 2, 3, 4] ⟨[1, 2, 3, 4], 0, 4, 4⟩
      1 2 rfl).mpr (by decide),
    fun hc => absurd ((C8_bounded_skip_then_fill.1 [1, 2, 3, 4]
      ⟨[1, 2, 3, 4], 0, 4, 4⟩ 1 4 rfl).mp hc) (by decide),
    (C8_bounded_skip_then_fill.2 ⟨[1, 2, 3, 4], 0, 4, 4⟩ 5).mpr (by decide)⟩

/-- C9: size-hint boundedness for both strategies.  For every decoder `d`
standing for the out-of-`src/` integer decode, if the decode leaves
`container_size_limit` unchanged (every supply operation does) and the limit
`m` is positive, then every successful `container_size` result is `< m`
(and of course `≥ 0`, being a natural number). -/
theorem C9_size_hint_bounded :
    (∀ (d : FiniteBuffer → Except FBError (Nat × FiniteBuffer))
       (b : FiniteBuffer) (r : Nat) (b' : FiniteBuffer),
      FiniteBuffer.container_size d b = Except.ok (r, b') →
      b'.container_size_limit = b.container_size_limit →
      0 < b.container_size_limit →
      r < b.container_size_limit) ∧
    (∀ (d : RingBuffer → Option (Nat × RingBuffer))
       (b : RingBuffer) (r : Nat) (b' : RingBuffer),
      RingBuffer.container_size d b = some (r, b') →
      b'.container_size_limit = b.container_size_limit →
      0 < b.container_size_limit →
      r < b.container_size_limit) := by
  constructor
  · intro d b r b' hcall hpres hm
    simp only [FiniteBuffer.container_size] at hcall
    cases hdb : d b with
    | error e =>
      rw [hdb] at hcall
      exact Except.noConfusion hcall
    | ok p =>
      rw [hdb] at hcall
      have hcall' : (Except.ok (p.1 % p.2.container_size_limit, p.2) :
          Except FBError (Nat × FiniteBuffer)) = Except.ok (r, b') := hcall
      have hpair := Except.ok.inj hcall'
      have hr : p.1 % p.2.container_size_limit = r := congrArg Prod.fst hpair
      have hb2 : p.2 = b' := congrArg Prod.snd hpair
      rw [← hr, hb2, hpres]
      exact Nat.mod_lt _ hm
  · intro d b r b' hcall hpres hm
    simp only [RingBuffer.container_size] at hcall
    cases hdb : d b with
    | none =>
      rw [hdb] at hcall
      exact Option.noConfusion hcall
    | some p =>
      rw [hdb] at hcall
      have hcall' : some (p.1 % p.2.container_size_limit, p.2) = some (r, b') :=
        hcall
      have hpair := Option.some.inj hcall'
      have hr : p.1 % p.2.container_size_limit = r := congrArg Prod.fst hpair
      have hb2 : p.2 = b' := congrArg Prod.snd hpair
      rw [← hr, hb2, hpres]
      exact Nat.mod_lt _ hm

/-- C9 witness: with a decoder returning 7 and limit 3, `container_size`
returns `7 % 3 = 1 < 3`, for both strategies. -/
theorem C9_size_hint_bounded_witness :
    FiniteBuffer.container_size (fun b => Except.ok (7, b)) ⟨[], 0, 0, 3⟩ =
      Except.ok (1, ⟨[], 0, 0, 3⟩) ∧
    RingBuffer.container_size (fun b => some (7, b)) ⟨[2], 0, 1, 3⟩ =
      some (1, ⟨[2], 0, 1, 3⟩) ∧
    (1 : Nat) < 3 := by
  refine ⟨rfl, rfl,
    C9_size_hint_bounded.1 (fun b => Except.ok (7, b)) ⟨[], 0, 0, 3⟩ 1
      ⟨[], 0, 0, 3⟩ rfl rfl (by decide)⟩

/-- C10: error atomicity of the bounded buffer.  Whenever `fill_buffer` or
`shift_right` reports `InsufficientBytes`, the cursor state is completely
unchanged and not a single byte of the caller's output buffer is written: a
failed operation is a no-op. -/
theorem C10_finite_error_atomic :
    (∀ (b : FiniteBuffer) (out : List Nat) (e : FBError),
      (b.fill_buffer out).1 = Except.error e →
      (b.fill_buffer out).2.1 = out ∧ (b.fill_buffer out).2.2 = b) ∧
    (∀ (b : FiniteBuffer) (t : Nat) (e : FBError),
      (b.shift_right t).1 = Except.error e → (b.shift_right t).2 = b) := by
  constructor
  · intro b out e h
    by_cases hg : b.virtual_len - b.offset < out.length
    · rw [fin_fill_err b out hg]
      exact ⟨rfl, rfl⟩
    · exfalso
      simp only [FiniteBuffer.fill_buffer] at h
      rw [if_pos (by omega)] at h
      exact Except.noConfusion h
  · intro b t e h
    by_cases hg : b.virtual_len - b.offset < t
    · rw [fin_shift_err b t hg]
    · exfalso
      rw [fin_shift_ok b t (by omega)] at h
      exact Except.noConfusion h

/-- C10 witness: the exhausted buffer over `[1]` rejects a 1-byte fill and a
1-byte skip, leaving the state and the output buffer `[9]` untouched. -/
theorem C10_finite_error_atomic_witness :
    ((FiniteBuffer.fill_buffer ⟨[1], 1, 1, 1⟩ [9]).2.1 = [9] ∧
     (FiniteBuffer.fill_buffer ⟨[1], 1, 1, 1⟩ [9]).2.2 = ⟨[1], 1, 1, 1⟩) ∧
    (FiniteBuffer.shift_right ⟨[1], 1, 1, 1⟩ 1).2 = ⟨[1], 1, 1, 1⟩ := by
  exact ⟨C10_finite_error_atomic.1 ⟨[1], 1, 1, 1⟩ [9]
      FBError.InsufficientBytes rfl,
    C10_finite_error_atomic.2 ⟨[1], 1, 1, 1⟩ 1 FBError.InsufficientBytes rfl⟩
